import Mathlib

/-!
Verification of the interval-scoring library (weighted-interval-score).

The repository ships a notebook (`use_scoring.ipynb`) that documents and
exercises a module `scoring` with four public functions: `interval_score`,
`weighted_interval_score` / `weighted_interval_score_fast`,
`outside_interval` and `interval_consistency_score`.  The module itself is
not part of the sources here, so the functions below are modelled from the
specification (data model: equal-length numeric vectors, a quantile
dictionary with exact-match lookup, alpha levels in (0,1], optional
weights).  Vectors are lists of rationals; the quantile dictionary is an
association list from level to vector.
-/

namespace Scoring

/-- A numeric vector: one entry per forecasted instance. -/
abbrev Vec := List ℚ

/-- A quantile dictionary: exact-match association of quantile level to the
vector of predicted values, one per instance. -/
abbrev QDict := List (ℚ × Vec)

/-- The only fatal error class of the library: required inputs missing,
mutually exclusive inputs both supplied, or a required quantile level
absent from the dictionary. -/
inductive ScoringError where
  | usage : ScoringError
deriving DecidableEq, Repr

/-- The triple returned by the interval scores. -/
structure ScoreTriple where
  total : Vec
  sharpness : Vec
  calibration : Vec
deriving DecidableEq, Repr

/-- Element-wise ternary zip, truncating to the shortest list. -/
def zipWith3 {α β γ δ : Type} (f : α → β → γ → δ) :
    List α → List β → List γ → List δ
  | a :: as, b :: bs, c :: cs => f a b c :: zipWith3 f as bs cs
  | _, _, _ => []

/-- Element-wise sum of two vectors; a missing entry counts as zero, so the
result has the length of the longer argument. -/
def addVec : Vec → Vec → Vec
  | a :: as, b :: bs => (a + b) :: addVec as bs
  | [], bs => bs
  | as, [] => as

/-- Scale every entry of a vector. -/
def scaleVec (w : ℚ) (v : Vec) : Vec := v.map (fun x => w * x)

/-- Divide every entry of a vector by `w`. -/
def divVec (v : Vec) (w : ℚ) : Vec := v.map (fun x => x / w)

/-- Weighted sum of a list of vectors, pairing weights with vectors
positionally (extra weights or vectors are ignored). -/
def wsum (ws : List ℚ) (vs : List Vec) : Vec :=
  (List.zip ws vs).foldr (fun p acc => addVec (scaleVec p.1 p.2) acc) []

/-- Sum of the weights actually paired with a vector. -/
def wtotal (ws : List ℚ) (vs : List Vec) : ℚ :=
  (List.zip ws vs).foldr (fun p acc => p.1 + acc) 0

/-- Element-wise check that `a ≤ b` wherever both entries exist. -/
def vecLE (a b : Vec) : Bool :=
  (List.zipWith (fun x y => decide (x ≤ y)) a b).all id

/-- Monotonicity of a quantile dictionary: for any two levels `p1 < p2`
present, the predicted values satisfy `value p1 ≤ value p2` element-wise. -/
def qdictConsistent (d : QDict) : Bool :=
  d.all (fun p1 => d.all (fun p2 => !(decide (p1.1 < p2.1)) || vecLE p1.2 p2.2))

/-- Exact-match lookup of a quantile level in the dictionary: no
interpolation, the first binding of the exact level wins. -/
def qlookup (d : QDict) (p : ℚ) : Option Vec :=
  match d with
  | [] => none
  | e :: rest => if e.1 = p then some e.2 else qlookup rest p

/-- Modelled from the spec: the element-wise core of `interval_score` (the
`scoring` module is not among the sources).  Sharpness is the interval
width, calibration penalizes observations outside the interval scaled by
`2/alpha`, and the total is their sum; in `percent` mode each component is
scaled by the absolute value of the observation. -/
def scoreCore (y : Vec) (alpha : ℚ) (l r : Vec) (percent : Bool) : ScoreTriple :=
  let sharp0 := List.zipWith (fun li ri => ri - li) l r
  let calib0 := zipWith3
    (fun yi li ri =>
      2 / alpha * (if yi < li then li - yi else 0) +
      2 / alpha * (if ri < yi then yi - ri else 0)) y l r
  let sharp := if percent then List.zipWith (fun s yi => s / |yi|) sharp0 y else sharp0
  let calib := if percent then List.zipWith (fun c yi => c / |yi|) calib0 y else calib0
  ⟨addVec sharp calib, sharp, calib⟩

/-- Modelled from the spec: `interval_score` of the missing `scoring`
module.  Exactly one input mode must be supplied: either the explicit
`(q_left, q_right)` pair, or a quantile dictionary from which the
`alpha/2` and `1 - alpha/2` levels are selected by exact-match lookup;
anything else is a fatal usage error.  A consistency violation found with
`check_consistency` on is non-fatal: it is reported through the boolean
diagnostic flag of the result and computation proceeds on the values as
given. -/
def interval_score (y : Vec) (alpha : ℚ) (q_dict : Option QDict)
    (q_left q_right : Option Vec) (percent : Bool) (check_consistency : Bool) :
    Except ScoringError (Bool × ScoreTriple) :=
  match q_dict with
  | none =>
    match q_left, q_right with
    | some l, some r =>
      .ok (check_consistency && !(vecLE l r), scoreCore y alpha l r percent)
    | _, _ => .error .usage
  | some d =>
    if q_left.isSome || q_right.isSome then .error .usage
    else
      match qlookup d (alpha / 2), qlookup d (1 - alpha / 2) with
      | some l, some r =>
        .ok (check_consistency && !(qdictConsistent d), scoreCore y alpha l r percent)
      | _, _ => .error .usage

/-- Modelled from the spec: the direct strategy of the weighted interval
score computes one interval score per alpha level through `interval_score`
in dictionary mode, collecting the results and stopping at the first fatal
error. -/
def collectScores (y : Vec) (q_dict : QDict) (percent check_consistency : Bool) :
    List ℚ → Except ScoringError (List (Bool × ScoreTriple))
  | [] => .ok []
  | a :: rest =>
    match interval_score y a (some q_dict) none none percent check_consistency with
    | .error e => .error e
    | .ok p =>
      match collectScores y q_dict percent check_consistency rest with
      | .error e => .error e
      | .ok ps => .ok (p :: ps)

/-- Modelled from the spec: `weighted_interval_score`, the direct strategy
of the missing `scoring` module.  One interval score per alpha level is
computed through `interval_score`, then each component is the weighted
average `(Σ weight_i · component_i) / (Σ weight_i)`; omitted weights
default to `alpha_i / 2`. -/
def weighted_interval_score (y : Vec) (alphas : List ℚ) (q_dict : QDict)
    (weights : Option (List ℚ)) (percent check_consistency : Bool) :
    Except ScoringError (Bool × ScoreTriple) :=
  let ws := weights.getD (alphas.map (fun a => a / 2))
  match collectScores y q_dict percent check_consistency alphas with
  | .error e => .error e
  | .ok results =>
    let totals := results.map (fun p => p.2.total)
    let sharps := results.map (fun p => p.2.sharpness)
    let calibs := results.map (fun p => p.2.calibration)
    let W := wtotal ws totals
    .ok (results.any Prod.fst,
      ⟨divVec (wsum ws totals) W, divVec (wsum ws sharps) W, divVec (wsum ws calibs) W⟩)

/-- Modelled from the spec: `weighted_interval_score_fast`, the batched
strategy of the missing `scoring` module.  All required quantile levels
are looked up first (a missing level is a fatal usage error), the stacked
sharpness and calibration columns are computed in one pass, each is
reduced by a weighted sum, and the total is the sum of the two reduced
components; the consistency check runs once on the dictionary instead of
once per level. -/
def weighted_interval_score_fast (y : Vec) (alphas : List ℚ) (q_dict : QDict)
    (weights : Option (List ℚ)) (percent check_consistency : Bool) :
    Except ScoringError (Bool × ScoreTriple) :=
  let ws := weights.getD (alphas.map (fun a => a / 2))
  if alphas.all (fun a =>
      ((qlookup q_dict (a / 2)).isSome && (qlookup q_dict (1 - a / 2)).isSome)) then
    let lowers := alphas.map (fun a => (qlookup q_dict (a / 2)).getD [])
    let uppers := alphas.map (fun a => (qlookup q_dict (1 - a / 2)).getD [])
    let sharps0 := List.zipWith (fun l r => List.zipWith (fun li ri => ri - li) l r) lowers uppers
    let calibs0 := zipWith3 (fun (a : ℚ) (l r : Vec) =>
      zipWith3 (fun yi li ri =>
        2 / a * (if yi < li then li - yi else 0) +
        2 / a * (if ri < yi then yi - ri else 0)) y l r) alphas lowers uppers
    let sharps := if percent then
        sharps0.map (fun s => List.zipWith (fun si yi => si / |yi|) s y) else sharps0
    let calibs := if percent then
        calibs0.map (fun c => List.zipWith (fun ci yi => ci / |yi|) c y) else calibs0
    let Sw := wsum ws sharps
    let Cw := wsum ws calibs
    let W := wtotal ws sharps
    .ok (check_consistency && !(qdictConsistent q_dict),
      ⟨divVec (addVec Sw Cw) W, divVec Sw W, divVec Cw W⟩)
  else .error .usage

/-- Modelled from the spec: `outside_interval` of the missing `scoring`
module.  Pure element-wise comparison: the indicator is 1 where the
observation is strictly outside the interval, 0 otherwise; the optional
consistency check on `lower ≤ upper` is reported non-fatally. -/
def outside_interval (y lower upper : Vec) (check_consistency : Bool) :
    Bool × Vec :=
  (check_consistency && !(vecLE lower upper),
   zipWith3 (fun yi li ui => if yi < li ∨ ui < yi then (1 : ℚ) else 0) y lower upper)

/-- The lower-side penalty of the consistency score: the amount by which
the new lower boundary falls below the old one; zero when a boundary is
absent. -/
def lowerPenalty : Option Vec → Option Vec → Vec
  | some o, some n => List.zipWith (fun a b => max (a - b) 0) o n
  | none, _ => []
  | some _, none => []

/-- The upper-side penalty of the consistency score: the amount by which
the new upper boundary exceeds the old one; zero when a boundary is
absent. -/
def upperPenalty : Option Vec → Option Vec → Vec
  | some o, some n => List.zipWith (fun a b => max (b - a) 0) o n
  | none, _ => []
  | some _, none => []

/-- Order check of an optional boundary pair; a pair with an absent side
is vacuously ordered. -/
def pairLE : Option Vec → Option Vec → Bool
  | some a, some b => vecLE a b
  | none, _ => true
  | some _, none => true

/-- Modelled from the spec: `interval_consistency_score` of the missing
`scoring` module, following the spec's governing description (the
element-wise amount by which the new interval extends outside the old one
on each side, zero when fully nested), which matches the recorded
reference outputs: the penalty is `max (lower_old - lower_new) 0 +
max (upper_new - upper_old) 0`.  An omitted boundary contributes zero
penalty on its side, and the optional consistency check on the supplied
boundary pairs is reported non-fatally. -/
def interval_consistency_score (lower_old upper_old lower_new upper_new : Option Vec)
    (check_consistency : Bool) : Bool × Vec :=
  (check_consistency &&
    (!(pairLE lower_old upper_old) || !(pairLE lower_new upper_new)),
   addVec (lowerPenalty lower_old lower_new) (upperPenalty upper_old upper_new))

/-- The exemplary ground-truth observations of the notebook. -/
def observations_test : Vec := [4, 7, 4, 6, 2, 1, 3, 8]

/-- The exemplary quantile forecasts of the notebook. -/
def quantile_dict_test : QDict :=
  [(0.1, [2, 3, 5, 9, 1, -3, 0.2, 8.7]),
   (0.2, [2, 4.6, 5, 9.4, 1.4, -2, 0.4, 8.8]),
   (0.5, [2, 4.7, 5.2, 9.6, 1.8, -2, 0.4, 8.8]),
   (0.8, [4, 4.8, 5.7, 12, 4.3, -1.5, 2, 8.9]),
   (0.9, [5, 5, 7, 13, 5, -1, 3, 9])]

/-! Basic algebra of the vector helpers. -/

@[simp] theorem addVec_nil_left (v : Vec) : addVec [] v = v := by cases v <;> rfl

@[simp] theorem addVec_nil_right (v : Vec) : addVec v [] = v := by cases v <;> rfl

@[simp] theorem addVec_cons (a b : ℚ) (as bs : Vec) :
    addVec (a :: as) (b :: bs) = (a + b) :: addVec as bs := rfl

theorem addVec_getD (u v : Vec) (i : ℕ) :
    (addVec u v).getD i 0 = u.getD i 0 + v.getD i 0 := by
  induction u generalizing v i with
  | nil => simp
  | cons a as ih =>
    cases v with
    | nil => simp
    | cons b bs =>
      cases i with
      | zero => simp
      | succ n => simpa using ih bs n

theorem addVec_comm (u v : Vec) : addVec u v = addVec v u := by
  induction u generalizing v with
  | nil => simp
  | cons a as ih =>
    cases v with
    | nil => simp
    | cons b bs => simp [add_comm, ih]

theorem addVec_assoc (u v w : Vec) :
    addVec (addVec u v) w = addVec u (addVec v w) := by
  induction u generalizing v w with
  | nil => simp
  | cons a as ih =>
    cases v with
    | nil => simp
    | cons b bs =>
      cases w with
      | nil => simp
      | cons c cs => simp [add_assoc, ih]

theorem addVec_length (u v : Vec) :
    (addVec u v).length = max u.length v.length := by
  induction u generalizing v with
  | nil => simp
  | cons a as ih =>
    cases v with
    | nil => simp
    | cons b bs => simp [ih]; omega

@[simp] theorem scaleVec_nil (w : ℚ) : scaleVec w [] = [] := rfl

@[simp] theorem scaleVec_cons (w a : ℚ) (as : Vec) :
    scaleVec w (a :: as) = w * a :: scaleVec w as := rfl

theorem scaleVec_addVec (w : ℚ) (u v : Vec) :
    scaleVec w (addVec u v) = addVec (scaleVec w u) (scaleVec w v) := by
  induction u generalizing v with
  | nil => simp
  | cons a as ih =>
    cases v with
    | nil => simp
    | cons b bs => simp [mul_add, ih]

@[simp] theorem divVec_nil (w : ℚ) : divVec [] w = [] := rfl

@[simp] theorem divVec_cons (a : ℚ) (as : Vec) (w : ℚ) :
    divVec (a :: as) w = a / w :: divVec as w := rfl

theorem divVec_addVec (u v : Vec) (w : ℚ) :
    divVec (addVec u v) w = addVec (divVec u w) (divVec v w) := by
  induction u generalizing v with
  | nil => simp
  | cons a as ih =>
    cases v with
    | nil => simp
    | cons b bs => simp [add_div, ih]

@[simp] theorem wsum_nil_left (vs : List Vec) : wsum [] vs = [] := rfl

@[simp] theorem wsum_nil_right (ws : List ℚ) : wsum ws [] = [] := by
  cases ws <;> rfl

@[simp] theorem wsum_cons (w : ℚ) (ws : List ℚ) (v : Vec) (vs : List Vec) :
    wsum (w :: ws) (v :: vs) = addVec (scaleVec w v) (wsum ws vs) := rfl

@[simp] theorem wtotal_nil_left (vs : List Vec) : wtotal [] vs = 0 := rfl

@[simp] theorem wtotal_nil_right (ws : List ℚ) : wtotal ws [] = 0 := by
  cases ws <;> rfl

@[simp] theorem wtotal_cons (w : ℚ) (ws : List ℚ) (v : Vec) (vs : List Vec) :
    wtotal (w :: ws) (v :: vs) = w + wtotal ws vs := rfl

theorem wtotal_length_eq (ws : List ℚ) (vs vs' : List Vec)
    (h : vs.length = vs'.length) : wtotal ws vs = wtotal ws vs' := by
  induction ws generalizing vs vs' with
  | nil => simp
  | cons w ws ih =>
    cases vs with
    | nil =>
      cases vs' with
      | nil => rfl
      | cons v' t' => simp at h
    | cons v t =>
      cases vs' with
      | nil => simp at h
      | cons v' t' => simpa using ih t t' (by simpa using h)

theorem wsum_zip_addVec (ws : List ℚ) (ss cs : List Vec)
    (h : ss.length = cs.length) :
    wsum ws (List.zipWith addVec ss cs) = addVec (wsum ws ss) (wsum ws cs) := by
  induction ws generalizing ss cs with
  | nil => simp
  | cons w ws ih =>
    cases ss with
    | nil =>
      cases cs with
      | nil => simp
      | cons c ct => simp at h
    | cons s st =>
      cases cs with
      | nil => simp at h
      | cons c ct =>
        simp only [List.zipWith_cons_cons, wsum_cons, scaleVec_addVec]
        rw [ih st ct (by simpa using h)]
        rw [addVec_assoc, addVec_assoc]
        congr 1
        rw [← addVec_assoc, ← addVec_assoc,
          addVec_comm (scaleVec w c) (wsum ws st)]

@[simp] theorem zipWith3_nil_left {α β γ δ : Type} (f : α → β → γ → δ)
    (bs : List β) (cs : List γ) : zipWith3 f [] bs cs = [] := by
  cases bs <;> cases cs <;> rfl

@[simp] theorem zipWith3_cons {α β γ δ : Type} (f : α → β → γ → δ)
    (a : α) (as : List α) (b : β) (bs : List β) (c : γ) (cs : List γ) :
    zipWith3 f (a :: as) (b :: bs) (c :: cs) = f a b c :: zipWith3 f as bs cs := rfl

theorem length_zipWith3 {α β γ δ : Type} (f : α → β → γ → δ)
    (as : List α) (bs : List β) (cs : List γ) :
    (zipWith3 f as bs cs).length = min as.length (min bs.length cs.length) := by
  induction as generalizing bs cs with
  | nil => simp
  | cons a at' ih =>
    cases bs with
    | nil => simp [zipWith3]
    | cons b bt =>
      cases cs with
      | nil => simp [zipWith3]
      | cons c ct =>
        simp only [zipWith3_cons, List.length_cons, ih]
        omega

theorem zipWith3_congr {α β γ δ : Type} (f g : α → β → γ → δ)
    (as : List α) (bs : List β) (cs : List γ)
    (h : ∀ a b c, f a b c = g a b c) :
    zipWith3 f as bs cs = zipWith3 g as bs cs := by
  induction as generalizing bs cs with
  | nil => simp
  | cons a at' ih =>
    cases bs with
    | nil => rfl
    | cons b bt =>
      cases cs with
      | nil => rfl
      | cons c ct => simp [h, ih]

theorem zipWith_getD (f : ℚ → ℚ → ℚ) (a b : Vec) (i : ℕ)
    (ha : i < a.length) (hb : i < b.length) :
    (List.zipWith f a b).getD i 0 = f (a.getD i 0) (b.getD i 0) := by
  induction a generalizing b i with
  | nil => simp at ha
  | cons x xs ih =>
    cases b with
    | nil => simp at hb
    | cons y ys =>
      cases i with
      | zero => simp
      | succ n =>
        simp only [List.zipWith_cons_cons, List.getD_cons_succ]
        exact ih ys n (by simpa using ha) (by simpa using hb)

theorem zipWith3_getD (f : ℚ → ℚ → ℚ → ℚ) (a b c : Vec) (i : ℕ)
    (ha : i < a.length) (hb : i < b.length) (hc : i < c.length) :
    (zipWith3 f a b c).getD i 0 = f (a.getD i 0) (b.getD i 0) (c.getD i 0) := by
  induction a generalizing b c i with
  | nil => simp at ha
  | cons x xs ih =>
    cases b with
    | nil => simp at hb
    | cons y ys =>
      cases c with
      | nil => simp at hc
      | cons z zs =>
        cases i with
        | zero => simp
        | succ n =>
          simp only [zipWith3_cons, List.getD_cons_succ]
          exact ih ys zs n (by simpa using ha) (by simpa using hb)
            (by simpa using hc)

theorem vecLE_getD (a b : Vec) (h : vecLE a b = true) (i : ℕ)
    (ha : i < a.length) (hb : i < b.length) :
    a.getD i 0 ≤ b.getD i 0 := by
  induction a generalizing b i with
  | nil => simp at ha
  | cons x xs ih =>
    cases b with
    | nil => simp at hb
    | cons y ys =>
      simp only [vecLE, List.zipWith_cons_cons, List.all_cons, id,
        Bool.and_eq_true, decide_eq_true_eq] at h
      cases i with
      | zero => simpa using h.1
      | succ n =>
        simp only [List.getD_cons_succ]
        exact ih ys (by simp [vecLE, h.2]) n (by simpa using ha)
          (by simpa using hb)

/-- The length of the sharpness component of `scoreCore` without percent
scaling. -/
theorem scoreCore_sharpness_length (y : Vec) (alpha : ℚ) (l r : Vec) :
    (scoreCore y alpha l r false).sharpness.length = min l.length r.length := by
  simp [scoreCore]

/-- Non-negativity of the sharpness component when the boundaries are
ordered. -/
theorem sharp_nonneg_aux (y l r : Vec) (alpha : ℚ) (hlr : vecLE l r = true)
    (i : ℕ) : 0 ≤ (scoreCore y alpha l r false).sharpness.getD i 0 := by
  have hrfl : (scoreCore y alpha l r false).sharpness =
      List.zipWith (fun li ri => ri - li) l r := rfl
  by_cases hi : i < min l.length r.length
  · rw [hrfl, zipWith_getD _ l r i (by omega) (by omega)]
    have := vecLE_getD l r hlr i (by omega) (by omega)
    linarith
  · rw [hrfl, List.getD_eq_default _ _ (by simp; omega)]

/-- Non-negativity of the calibration component when `2/alpha` is
non-negative. -/
theorem calib_nonneg_aux (y l r : Vec) (alpha : ℚ) (h2a : (0 : ℚ) ≤ 2 / alpha)
    (i : ℕ) : 0 ≤ (scoreCore y alpha l r false).calibration.getD i 0 := by
  have hrfl : (scoreCore y alpha l r false).calibration =
      zipWith3 (fun yi li ri =>
        2 / alpha * (if yi < li then li - yi else 0) +
        2 / alpha * (if ri < yi then yi - ri else 0)) y l r := rfl
  by_cases hi : i < min y.length (min l.length r.length)
  · rw [hrfl, zipWith3_getD _ y l r i (by omega) (by omega) (by omega)]
    have t1 : 0 ≤ 2 / alpha * (if y.getD i 0 < l.getD i 0
        then l.getD i 0 - y.getD i 0 else 0) := by
      by_cases h1 : y.getD i 0 < l.getD i 0
      · rw [if_pos h1]; exact mul_nonneg h2a (by linarith)
      · rw [if_neg h1]; simp
    have t2 : 0 ≤ 2 / alpha * (if r.getD i 0 < y.getD i 0
        then y.getD i 0 - r.getD i 0 else 0) := by
      by_cases h2 : r.getD i 0 < y.getD i 0
      · rw [if_pos h2]; exact mul_nonneg h2a (by linarith)
      · rw [if_neg h2]; simp
    linarith
  · rw [hrfl, List.getD_eq_default _ _ (by rw [length_zipWith3]; omega)]

/-- C1: for every observation vector, alpha in (0,1], and boundary vectors
with `q_left ≤ q_right` element-wise, `interval_score` returns the triple
with sharpness `q_right − q_left`, calibration
`(2/alpha)·(q_left − y)·1[y < q_left] + (2/alpha)·(y − q_right)·1[y > q_right]`,
and total = sharpness + calibration, all element-wise non-negative, with
calibration zero wherever the observation lies inside the interval; and on
the reference data it returns total `[3,22,12,34,4,22,2.8,7.3]`, sharpness
`[3,2,2,4,4,2,2.8,0.3]`, calibration `[0,20,10,30,0,20,0,7]`. -/
theorem C1_interval_score_correct :
    (∀ (y l r : Vec) (alpha : ℚ) (check : Bool),
      l.length = y.length → r.length = y.length → 0 < alpha → alpha ≤ 1 →
      vecLE l r = true →
      ∃ w t, interval_score y alpha none (some l) (some r) false check = .ok (w, t) ∧
        t.sharpness = List.zipWith (fun li ri => ri - li) l r ∧
        t.calibration = zipWith3 (fun yi li ri =>
          2 / alpha * (li - yi) * (if yi < li then 1 else 0) +
          2 / alpha * (yi - ri) * (if ri < yi then 1 else 0)) y l r ∧
        t.total = addVec t.sharpness t.calibration ∧
        (∀ i, 0 ≤ t.total.getD i 0) ∧
        (∀ i, 0 ≤ t.sharpness.getD i 0) ∧
        (∀ i, 0 ≤ t.calibration.getD i 0) ∧
        (∀ i, l.getD i 0 ≤ y.getD i 0 → y.getD i 0 ≤ r.getD i 0 →
          t.calibration.getD i 0 = 0)) ∧
    interval_score [4, 7, 4, 6, 2, 1, 3, 8] 0.2 none
      (some [2, 3, 5, 9, 1, -3, 0.2, 8.7]) (some [5, 5, 7, 13, 5, -1, 3, 9])
      false true =
      .ok (false, ⟨[3, 22, 12, 34, 4, 22, 2.8, 7.3],
        [3, 2, 2, 4, 4, 2, 2.8, 0.3], [0, 20, 10, 30, 0, 20, 0, 7]⟩) := by
  constructor
  · intro y l r alpha check hly hry ha0 ha1 hlr
    have h2a : (0 : ℚ) ≤ 2 / alpha := by positivity
    refine ⟨check && !(vecLE l r), scoreCore y alpha l r false, rfl, rfl, ?_, rfl,
      ?_, ?_, ?_, ?_⟩
    · show zipWith3 _ y l r = _
      apply zipWith3_congr
      intro a b c
      by_cases h1 : a < b <;> by_cases h2 : c < a <;> simp [h1, h2]
    · -- total is non-negative
      intro i
      rw [show (scoreCore y alpha l r false).total =
        addVec (scoreCore y alpha l r false).sharpness
          (scoreCore y alpha l r false).calibration from rfl, addVec_getD]
      have hs := sharp_nonneg_aux y l r alpha hlr i
      have hc := calib_nonneg_aux y l r alpha h2a i
      linarith
    · exact sharp_nonneg_aux y l r alpha hlr
    · exact calib_nonneg_aux y l r alpha h2a
    · intro i hli hri
      show (zipWith3 _ y l r).getD i 0 = 0
      by_cases hi : i < (zipWith3 (fun yi li ri =>
          2 / alpha * (if yi < li then li - yi else 0) +
          2 / alpha * (if ri < yi then yi - ri else 0)) y l r).length
      · rw [length_zipWith3] at hi
        rw [zipWith3_getD _ y l r i (by omega) (by omega) (by omega)]
        rw [if_neg (not_lt.2 hli), if_neg (not_lt.2 hri)]
        ring
      · exact List.getD_eq_default _ _ (by omega)
  · norm_num [interval_score, scoreCore, vecLE, zipWith3, addVec]

/-- Witness instantiating the universally quantified part of the C1 theorem
at a concrete input. -/
theorem C1_interval_score_correct_witness :
    ∃ w t, interval_score [1, 5] 1 none (some [0, 0]) (some [2, 2]) false true =
        .ok (w, t) ∧
      t.sharpness = List.zipWith (fun li ri => ri - li) [0, 0] [2, 2] ∧
      t.calibration = zipWith3 (fun yi li ri =>
        2 / 1 * (li - yi) * (if yi < li then 1 else 0) +
        2 / 1 * (yi - ri) * (if ri < yi then 1 else 0)) [1, 5] [0, 0] [2, 2] ∧
      t.total = addVec t.sharpness t.calibration ∧
      (∀ i, 0 ≤ t.total.getD i 0) ∧
      (∀ i, 0 ≤ t.sharpness.getD i 0) ∧
      (∀ i, 0 ≤ t.calibration.getD i 0) ∧
      (∀ i, List.getD ([0, 0] : Vec) i 0 ≤ List.getD ([1, 5] : Vec) i 0 →
        List.getD ([1, 5] : Vec) i 0 ≤ List.getD ([2, 2] : Vec) i 0 →
        t.calibration.getD i 0 = 0) :=
  C1_interval_score_correct.1 [1, 5] [0, 0] [2, 2] 1 true rfl rfl one_pos le_rfl
    (by norm_num [vecLE])

/-- C5: `outside_interval` returns a vector of the observations' length
whose i-th entry is 1 exactly when the observation is strictly below the
lower or strictly above the upper boundary, and 0 otherwise, with no
aggregation across instances. -/
theorem C5_outside_interval_indicator (y lower upper : Vec) (check : Bool)
    (hl : lower.length = y.length) (hu : upper.length = y.length) :
    ((outside_interval y lower upper check).2.length = y.length) ∧
    ∀ i, i < y.length →
      (((outside_interval y lower upper check).2.getD i 0 = 1 ↔
        (y.getD i 0 < lower.getD i 0 ∨ upper.getD i 0 < y.getD i 0)) ∧
       ((outside_interval y lower upper check).2.getD i 0 = 0 ↔
        (lower.getD i 0 ≤ y.getD i 0 ∧ y.getD i 0 ≤ upper.getD i 0))) := by
  have hsnd : (outside_interval y lower upper check).2 =
      zipWith3 (fun yi li ui => if yi < li ∨ ui < yi then (1 : ℚ) else 0)
        y lower upper := rfl
  constructor
  · rw [hsnd, length_zipWith3]; omega
  · intro i hi
    rw [hsnd, zipWith3_getD _ y lower upper i (by omega) (by omega) (by omega)]
    by_cases h : y.getD i 0 < lower.getD i 0 ∨ upper.getD i 0 < y.getD i 0
    · rw [if_pos h]
      constructor
      · exact ⟨fun _ => h, fun _ => rfl⟩
      · constructor
        · intro h10; exact absurd h10 one_ne_zero
        · intro hin; rcases h with h | h
          · linarith [hin.1]
          · linarith [hin.2]
    · rw [if_neg h]
      push_neg at h
      constructor
      · constructor
        · intro h01; exact absurd h01.symm one_ne_zero
        · intro hout; exact absurd hout (by push_neg; exact h)
      · exact ⟨fun _ => h, fun _ => rfl⟩

/-- Witness instantiating the C5 theorem at a concrete input: the
reference observations against the 0.1 and 0.9 quantile boundaries, where
the recorded indicator vector is `[0,1,1,1,0,1,0,1]`. -/
theorem C5_outside_interval_indicator_witness :
    ((outside_interval [4, 7, 4, 6, 2, 1, 3, 8] [2, 3, 5, 9, 1, -3, 0.2, 8.7]
        [5, 5, 7, 13, 5, -1, 3, 9] true).2.length =
      List.length ([4, 7, 4, 6, 2, 1, 3, 8] : Vec)) ∧
    ∀ i, i < List.length ([4, 7, 4, 6, 2, 1, 3, 8] : Vec) →
      (((outside_interval [4, 7, 4, 6, 2, 1, 3, 8] [2, 3, 5, 9, 1, -3, 0.2, 8.7]
          [5, 5, 7, 13, 5, -1, 3, 9] true).2.getD i 0 = 1 ↔
        (List.getD ([4, 7, 4, 6, 2, 1, 3, 8] : Vec) i 0 <
            List.getD ([2, 3, 5, 9, 1, -3, 0.2, 8.7] : Vec) i 0 ∨
          List.getD ([5, 5, 7, 13, 5, -1, 3, 9] : Vec) i 0 <
            List.getD ([4, 7, 4, 6, 2, 1, 3, 8] : Vec) i 0)) ∧
       ((outside_interval [4, 7, 4, 6, 2, 1, 3, 8] [2, 3, 5, 9, 1, -3, 0.2, 8.7]
          [5, 5, 7, 13, 5, -1, 3, 9] true).2.getD i 0 = 0 ↔
        (List.getD ([2, 3, 5, 9, 1, -3, 0.2, 8.7] : Vec) i 0 ≤
            List.getD ([4, 7, 4, 6, 2, 1, 3, 8] : Vec) i 0 ∧
          List.getD ([4, 7, 4, 6, 2, 1, 3, 8] : Vec) i 0 ≤
            List.getD ([5, 5, 7, 13, 5, -1, 3, 9] : Vec) i 0))) :=
  C5_outside_interval_indicator [4, 7, 4, 6, 2, 1, 3, 8]
    [2, 3, 5, 9, 1, -3, 0.2, 8.7] [5, 5, 7, 13, 5, -1, 3, 9] true rfl rfl

/-- Non-negativity of an entry of a zipped vector whose combining function
is non-negative. -/
theorem zip_nonneg_getD (f : ℚ → ℚ → ℚ) (hf : ∀ a b, 0 ≤ f a b)
    (as bs : Vec) (i : ℕ) : 0 ≤ (List.zipWith f as bs).getD i 0 := by
  by_cases hi : i < min as.length bs.length
  · rw [zipWith_getD f as bs i (by omega) (by omega)]; exact hf _ _
  · rw [List.getD_eq_default _ _ (by rw [List.length_zipWith]; omega)]

/-- C6 counterexample: with old interval `[1, 2]` and new interval
`[1, 3]` the new interval exceeds the old on the upper side and the
returned score is `[1]`, not the value `[0]` of the claimed formula
`max(lower_new − lower_old, 0) + max(upper_old − upper_new, 0)`. -/
theorem C6_interval_consistency_counterexample :
    ¬ ((interval_consistency_score (some [1]) (some [2]) (some [1]) (some [3])
        true).2 =
      [max ((1 : ℚ) - 1) 0 + max ((2 : ℚ) - 3) 0]) := by
  norm_num [interval_consistency_score, lowerPenalty, upperPenalty, addVec, max_def]

/-- C6 (amended): `interval_consistency_score` returns element-wise
`max (lower_old − lower_new) 0 + max (upper_new − upper_old) 0`, i.e. the
lower penalty is `max 0 (lower_old − lower_new)` and the upper penalty is
`max 0 (upper_new − upper_old)`; on the reference data (old interval from
the 0.1/0.8 quantiles, new interval from the 0.1/0.9 quantiles) it
returns the recorded scores `[1, 0.2, 1.3, 1, 0.7, 0.5, 1, 0.1]`. -/
theorem C6_interval_consistency_formula :
    (∀ (lo uo ln un : Vec) (check : Bool),
      uo.length = lo.length → ln.length = lo.length → un.length = lo.length →
      ((interval_consistency_score (some lo) (some uo) (some ln) (some un)
          check).2.length = lo.length) ∧
      ∀ i, i < lo.length →
        (interval_consistency_score (some lo) (some uo) (some ln) (some un)
            check).2.getD i 0 =
          max (lo.getD i 0 - ln.getD i 0) 0 + max (un.getD i 0 - uo.getD i 0) 0) ∧
    (interval_consistency_score (some [2, 3, 5, 9, 1, -3, 0.2, 8.7])
        (some [4, 4.8, 5.7, 12, 4.3, -1.5, 2, 8.9])
        (some [2, 3, 5, 9, 1, -3, 0.2, 8.7])
        (some [5, 5, 7, 13, 5, -1, 3, 9]) true).2 =
      [1, 0.2, 1.3, 1, 0.7, 0.5, 1, 0.1] := by
  constructor
  · intro lo uo ln un check h1 h2 h3
    have hsnd : (interval_consistency_score (some lo) (some uo) (some ln)
        (some un) check).2 =
        addVec (List.zipWith (fun o n => max (o - n) 0) lo ln)
          (List.zipWith (fun o n => max (n - o) 0) uo un) := rfl
    constructor
    · rw [hsnd, addVec_length, List.length_zipWith, List.length_zipWith]; omega
    · intro i hi
      rw [hsnd, addVec_getD, zipWith_getD _ lo ln i (by omega) (by omega),
        zipWith_getD _ uo un i (by omega) (by omega)]
  · norm_num [interval_consistency_score, lowerPenalty, upperPenalty, addVec, max_def]

/-- Witness instantiating the universally quantified part of the C6
theorem at a concrete input. -/
theorem C6_interval_consistency_formula_witness :
    ((interval_consistency_score (some [1, 0]) (some [2, 4]) (some [0, 1])
        (some [3, 2]) true).2.length = List.length ([1, 0] : Vec)) ∧
    ∀ i, i < List.length ([1, 0] : Vec) →
      (interval_consistency_score (some [1, 0]) (some [2, 4]) (some [0, 1])
          (some [3, 2]) true).2.getD i 0 =
        max (List.getD ([1, 0] : Vec) i 0 - List.getD ([0, 1] : Vec) i 0) 0 +
        max (List.getD ([3, 2] : Vec) i 0 - List.getD ([2, 4] : Vec) i 0) 0 :=
  C6_interval_consistency_formula.1 [1, 0] [2, 4] [0, 1] [3, 2] true rfl rfl rfl

/-- C7: the consistency score is element-wise non-negative, all-zero
whenever the new interval nests inside the old one, an omitted boundary
pair contributes zero penalty on its side, and on the reference nested
data the score is all zeros. -/
theorem C7_interval_consistency_nesting :
    (∀ (lo uo ln un : Option Vec) (check : Bool) (i : ℕ),
      0 ≤ (interval_consistency_score lo uo ln un check).2.getD i 0) ∧
    (∀ (lo uo ln un : Vec) (check : Bool),
      vecLE lo ln = true → vecLE un uo = true →
      ∀ i, (interval_consistency_score (some lo) (some uo) (some ln) (some un)
        check).2.getD i 0 = 0) ∧
    (∀ (lo ln : Vec) (check : Bool),
      (interval_consistency_score (some lo) none (some ln) none check).2 =
        List.zipWith (fun o n => max (o - n) 0) lo ln) ∧
    (∀ (uo un : Vec) (check : Bool),
      (interval_consistency_score none (some uo) none (some un) check).2 =
        List.zipWith (fun o n => max (n - o) 0) uo un) ∧
    (interval_consistency_score (some [2, 3, 5, 9, 1, -3, 0.2, 8.7])
        (some [5, 5, 7, 13, 5, -1, 3, 9])
        (some [2, 3, 5, 9, 1, -3, 0.2, 8.7])
        (some [4, 4.8, 5.7, 12, 4.3, -1.5, 2, 8.9]) true).2 =
      [0, 0, 0, 0, 0, 0, 0, 0] := by
  refine ⟨?_, ?_, ?_, ?_, ?_⟩
  · intro lo uo ln un check i
    rw [show (interval_consistency_score lo uo ln un check).2 =
      addVec (lowerPenalty lo ln) (upperPenalty uo un) from rfl, addVec_getD]
    refine add_nonneg ?_ ?_
    · rcases lo with _ | lo <;> rcases ln with _ | ln <;>
        first
          | exact zip_nonneg_getD _ (fun a b => le_max_right _ _) _ _ i
          | simp [lowerPenalty]
    · rcases uo with _ | uo <;> rcases un with _ | un <;>
        first
          | exact zip_nonneg_getD _ (fun a b => le_max_right _ _) _ _ i
          | simp [upperPenalty]
  · intro lo uo ln un check hlow hup i
    have hsnd : (interval_consistency_score (some lo) (some uo) (some ln)
        (some un) check).2 =
        addVec (List.zipWith (fun o n => max (o - n) 0) lo ln)
          (List.zipWith (fun o n => max (n - o) 0) uo un) := rfl
    rw [hsnd, addVec_getD]
    have hA : (List.zipWith (fun o n => max (o - n) 0) lo ln).getD i 0 = 0 := by
      by_cases hi : i < min lo.length ln.length
      · rw [zipWith_getD _ lo ln i (by omega) (by omega)]
        have := vecLE_getD lo ln hlow i (by omega) (by omega)
        exact max_eq_right (by linarith)
      · exact List.getD_eq_default _ _ (by rw [List.length_zipWith]; omega)
    have hB : (List.zipWith (fun o n => max (n - o) 0) uo un).getD i 0 = 0 := by
      by_cases hi : i < min uo.length un.length
      · rw [zipWith_getD _ uo un i (by omega) (by omega)]
        have := vecLE_getD un uo hup i (by omega) (by omega)
        exact max_eq_right (by linarith)
      · exact List.getD_eq_default _ _ (by rw [List.length_zipWith]; omega)
    rw [hA, hB, add_zero]
  · intro lo ln check
    simp [interval_consistency_score, lowerPenalty, upperPenalty]
  · intro uo un check
    simp [interval_consistency_score, lowerPenalty, upperPenalty]
  · norm_num [interval_consistency_score, lowerPenalty, upperPenalty, addVec, max_def]

/-- Witness instantiating the nesting part of the C7 theorem at a concrete
input. -/
theorem C7_interval_consistency_nesting_witness :
    ∀ i, (interval_consistency_score (some [1]) (some [4]) (some [2]) (some [3])
      true).2.getD i 0 = 0 :=
  C7_interval_consistency_nesting.2.1 [1] [4] [2] [3] true
    (by norm_num [vecLE]) (by norm_num [vecLE])

/-- C8: `interval_score` fails with the fatal usage error, returning no
result, whenever neither input mode is supplied, both modes are supplied
at once, or the dictionary lacks the required `alpha/2` or `1 − alpha/2`
level under exact-match lookup. -/
theorem C8_usage_errors :
    (∀ (y : Vec) (alpha : ℚ) (percent check : Bool),
      interval_score y alpha none none none percent check = .error .usage) ∧
    (∀ (y l : Vec) (alpha : ℚ) (percent check : Bool),
      interval_score y alpha none (some l) none percent check = .error .usage ∧
      interval_score y alpha none none (some l) percent check = .error .usage) ∧
    (∀ (y : Vec) (d : QDict) (ql qr : Option Vec) (alpha : ℚ) (percent check : Bool),
      ql.isSome ∨ qr.isSome →
      interval_score y alpha (some d) ql qr percent check = .error .usage) ∧
    (∀ (y : Vec) (d : QDict) (alpha : ℚ) (percent check : Bool),
      qlookup d (alpha / 2) = none ∨ qlookup d (1 - alpha / 2) = none →
      interval_score y alpha (some d) none none percent check = .error .usage) := by
  refine ⟨?_, ?_, ?_, ?_⟩
  · intro y alpha percent check; rfl
  · intro y l alpha percent check; exact ⟨rfl, rfl⟩
  · intro y d ql qr alpha percent check h
    have hc : (ql.isSome || qr.isSome) = true := by
      rcases h with h | h <;> simp [h]
    have hred : interval_score y alpha (some d) ql qr percent check =
        if ql.isSome || qr.isSome then .error .usage
        else
          match qlookup d (alpha / 2), qlookup d (1 - alpha / 2) with
          | some l, some r =>
            .ok (check && !(qdictConsistent d), scoreCore y alpha l r percent)
          | _, _ => .error .usage := rfl
    rw [hred, if_pos hc]
  · intro y d alpha percent check h
    have hred : interval_score y alpha (some d) none none percent check =
        (match qlookup d (alpha / 2), qlookup d (1 - alpha / 2) with
         | some l, some r =>
           .ok (check && !(qdictConsistent d), scoreCore y alpha l r percent)
         | _, _ => .error .usage) := rfl
    rcases hL : qlookup d (alpha / 2) with _ | l
    · rcases hR : qlookup d (1 - alpha / 2) with _ | r <;> rw [hred, hL, hR]
    · rcases hR : qlookup d (1 - alpha / 2) with _ | r
      · rw [hred, hL, hR]
      · exfalso
        rw [hL, hR] at h
        rcases h with h | h <;> exact Option.noConfusion h

/-- Witness instantiating the hypothesis-bearing parts of the C8 theorem
at concrete inputs: a dictionary together with an explicit boundary, and a
dictionary missing the required level. -/
theorem C8_usage_errors_witness :
    interval_score [1] 1 (some [(0.5, [2])]) (some [0]) none false true =
      .error .usage ∧
    interval_score [1] (1 / 3) (some [(0.5, [2])]) none none false true =
      .error .usage :=
  ⟨C8_usage_errors.2.2.1 [1] [(0.5, [2])] (some [0]) none 1 false true
      (Or.inl rfl),
   C8_usage_errors.2.2.2 [1] [(0.5, [2])] (1 / 3) false true
      (Or.inl (by norm_num [qlookup]))⟩

/-- C10: in dictionary mode `interval_score` depends only on the entries
at levels `alpha/2` and `1 − alpha/2`: two dictionaries agreeing there
yield the same numeric triple, and the triple agrees with the one from
explicit-boundary mode on the looked-up vectors. -/
theorem C10_qdict_noninterference :
    (∀ (y : Vec) (alpha : ℚ) (d1 d2 : QDict) (percent check : Bool),
      qlookup d1 (alpha / 2) = qlookup d2 (alpha / 2) →
      qlookup d1 (1 - alpha / 2) = qlookup d2 (1 - alpha / 2) →
      (interval_score y alpha (some d1) none none percent check).map Prod.snd =
      (interval_score y alpha (some d2) none none percent check).map Prod.snd) ∧
    (∀ (y l r : Vec) (alpha : ℚ) (d : QDict) (percent check : Bool),
      qlookup d (alpha / 2) = some l → qlookup d (1 - alpha / 2) = some r →
      (interval_score y alpha (some d) none none percent check).map Prod.snd =
      (interval_score y alpha none (some l) (some r) percent check).map Prod.snd) := by
  constructor
  · intro y alpha d1 d2 percent check h1 h2
    have e1 : interval_score y alpha (some d1) none none percent check =
        (match qlookup d1 (alpha / 2), qlookup d1 (1 - alpha / 2) with
         | some l, some r =>
           .ok (check && !(qdictConsistent d1), scoreCore y alpha l r percent)
         | _, _ => .error .usage) := rfl
    have e2 : interval_score y alpha (some d2) none none percent check =
        (match qlookup d2 (alpha / 2), qlookup d2 (1 - alpha / 2) with
         | some l, some r =>
           .ok (check && !(qdictConsistent d2), scoreCore y alpha l r percent)
         | _, _ => .error .usage) := rfl
    rw [e1, e2, ← h1, ← h2]
    rcases hL : qlookup d1 (alpha / 2) with _ | l <;>
      rcases hR : qlookup d1 (1 - alpha / 2) with _ | r <;> rfl
  · intro y l r alpha d percent check hL hR
    have e1 : interval_score y alpha (some d) none none percent check =
        (match qlookup d (alpha / 2), qlookup d (1 - alpha / 2) with
         | some l, some r =>
           .ok (check && !(qdictConsistent d), scoreCore y alpha l r percent)
         | _, _ => .error .usage) := rfl
    rw [e1, hL, hR]
    rfl

/-- Witness instantiating the C10 theorem at concrete inputs: two
dictionaries differing only at the untouched median level. -/
theorem C10_qdict_noninterference_witness :
    (interval_score [1] 0.2 (some [(0.1, [2]), (0.9, [5]), (0.5, [100])])
      none none false true).map Prod.snd =
    (interval_score [1] 0.2 (some [(0.1, [2]), (0.9, [5]), (0.5, [7])])
      none none false true).map Prod.snd :=
  C10_qdict_noninterference.1 [1] 0.2 [(0.1, [2]), (0.9, [5]), (0.5, [100])]
    [(0.1, [2]), (0.9, [5]), (0.5, [7])] false true
    (by norm_num [qlookup]) (by norm_num [qlookup])

/-- Dictionary-mode reduction of `interval_score`. -/
theorem interval_score_dict_eq (y : Vec) (alpha : ℚ) (d : QDict)
    (percent check : Bool) :
    interval_score y alpha (some d) none none percent check =
      (match qlookup d (alpha / 2), qlookup d (1 - alpha / 2) with
       | some l, some r =>
         .ok (check && !(qdictConsistent d), scoreCore y alpha l r percent)
       | _, _ => .error .usage) := rfl

/-- When every alpha level has both required quantiles, the direct
collection succeeds with one `scoreCore` result per level. -/
theorem collectScores_ok (y : Vec) (d : QDict) (percent check : Bool)
    (alphas : List ℚ)
    (h : alphas.all (fun a =>
      ((qlookup d (a / 2)).isSome && (qlookup d (1 - a / 2)).isSome)) = true) :
    collectScores y d percent check alphas =
      .ok (alphas.map (fun a => (check && !(qdictConsistent d),
        scoreCore y a ((qlookup d (a / 2)).getD [])
          ((qlookup d (1 - a / 2)).getD []) percent))) := by
  induction alphas with
  | nil => rfl
  | cons a rest ih =>
    rw [List.all_cons, Bool.and_eq_true, Bool.and_eq_true] at h
    obtain ⟨⟨hL, hR⟩, hrest⟩ := h
    rcases hLs : qlookup d (a / 2) with _ | lv
    · rw [hLs] at hL; simp at hL
    · rcases hRs : qlookup d (1 - a / 2) with _ | rv
      · rw [hRs] at hR; simp at hR
      · have hscore : interval_score y a (some d) none none percent check =
            .ok (check && !(qdictConsistent d), scoreCore y a lv rv percent) := by
          rw [interval_score_dict_eq, hLs, hRs]
        simp only [collectScores, hscore, ih hrest, List.map_cons, hLs, hRs,
          Option.getD_some]

/-- When some alpha level lacks a required quantile, the direct collection
fails with the usage error. -/
theorem collectScores_err (y : Vec) (d : QDict) (percent check : Bool)
    (alphas : List ℚ)
    (h : alphas.all (fun a =>
      ((qlookup d (a / 2)).isSome && (qlookup d (1 - a / 2)).isSome)) = false) :
    collectScores y d percent check alphas = .error .usage := by
  induction alphas with
  | nil => simp at h
  | cons a rest ih =>
    rw [List.all_cons] at h
    by_cases ha : ((qlookup d (a / 2)).isSome &&
        (qlookup d (1 - a / 2)).isSome) = true
    · have hrest : rest.all (fun a =>
          ((qlookup d (a / 2)).isSome && (qlookup d (1 - a / 2)).isSome)) = false := by
        rw [ha] at h; simpa using h
      rw [Bool.and_eq_true] at ha
      rcases hLs : qlookup d (a / 2) with _ | lv
      · rw [hLs] at ha; simp at ha
      · rcases hRs : qlookup d (1 - a / 2) with _ | rv
        · rw [hRs] at ha; simp at ha
        · have hscore : interval_score y a (some d) none none percent check =
              .ok (check && !(qdictConsistent d), scoreCore y a lv rv percent) := by
            rw [interval_score_dict_eq, hLs, hRs]
          simp only [collectScores, hscore, ih hrest]
    · have hscore : interval_score y a (some d) none none percent check =
          .error .usage := by
        rw [interval_score_dict_eq]
        rcases hLs : qlookup d (a / 2) with _ | lv
        · rcases hRs : qlookup d (1 - a / 2) with _ | rv <;> rfl
        · rcases hRs : qlookup d (1 - a / 2) with _ | rv
          · rfl
          · exfalso; apply ha; rw [hLs, hRs]; rfl
      simp only [collectScores, hscore]

/-- Zipping two maps over a common list is a map over that list. -/
theorem zipWith_map_same {α : Type} (f : Vec → Vec → Vec) (g h : α → Vec)
    (as : List α) :
    List.zipWith f (as.map g) (as.map h) = as.map (fun a => f (g a) (h a)) := by
  induction as with
  | nil => rfl
  | cons a rest ih => simp only [List.map_cons, List.zipWith_cons_cons, ih]

/-- Three-way zipping a list with two maps over it is a map over it. -/
theorem zipWith3_map_same {α : Type} (f : α → Vec → Vec → Vec) (g h : α → Vec)
    (as : List α) :
    zipWith3 f as (as.map g) (as.map h) = as.map (fun a => f a (g a) (h a)) := by
  induction as with
  | nil => rfl
  | cons a rest ih => simp only [List.map_cons, zipWith3_cons, ih]

/-- A map of element-wise sums is a zip of the two maps. -/
theorem map_addVec_eq_zipWith {α : Type} (f g : α → Vec) (as : List α) :
    as.map (fun a => addVec (f a) (g a)) =
      List.zipWith addVec (as.map f) (as.map g) := by
  induction as with
  | nil => rfl
  | cons a rest ih => simp only [List.map_cons, List.zipWith_cons_cons, ih]

/-- Weighted sums distribute over element-wise sums of mapped vectors. -/
theorem wsum_map_addVec {α : Type} (ws : List ℚ) (f g : α → Vec) (as : List α) :
    wsum ws (as.map (fun a => addVec (f a) (g a))) =
      addVec (wsum ws (as.map f)) (wsum ws (as.map g)) := by
  rw [map_addVec_eq_zipWith]
  exact wsum_zip_addVec ws _ _ (by simp)

/-- The sum of paired weights only depends on how many vectors are
paired, not on the vectors themselves. -/
theorem aggregate_wtotal_eq (ws : List ℚ) {α : Type} (as : List α) (f g : α → Vec) :
    wtotal ws (as.map f) = wtotal ws (as.map g) :=
  wtotal_length_eq ws _ _ (by simp)

/-- The two weighted strategies return the same numeric triple and fail on
the same inputs (shared helper). -/
theorem weighted_map_snd_eq_aux (y : Vec) (alphas : List ℚ) (d : QDict)
    (weights : Option (List ℚ)) (percent check : Bool) :
    (weighted_interval_score y alphas d weights percent check).map Prod.snd =
    (weighted_interval_score_fast y alphas d weights percent check).map Prod.snd := by
  by_cases h : alphas.all (fun a =>
      ((qlookup d (a / 2)).isSome && (qlookup d (1 - a / 2)).isSome)) = true
  · have hcol := collectScores_ok y d percent check alphas h
    simp only [weighted_interval_score, weighted_interval_score_fast, hcol,
      if_pos h, List.map_map, Except.map, Function.comp_def]
    cases percent with
    | false =>
      simp only [Bool.false_eq_true, if_false, zipWith_map_same, zipWith3_map_same,
        List.map_map]
      have htot : List.map (fun a => (scoreCore y a ((qlookup d (a / 2)).getD [])
          ((qlookup d (1 - a / 2)).getD []) false).total) alphas
          = List.map (fun a => addVec
            ((scoreCore y a ((qlookup d (a / 2)).getD [])
              ((qlookup d (1 - a / 2)).getD []) false).sharpness)
            ((scoreCore y a ((qlookup d (a / 2)).getD [])
              ((qlookup d (1 - a / 2)).getD []) false).calibration)) alphas := rfl
      rw [htot, wsum_map_addVec]
      have hW := aggregate_wtotal_eq (weights.getD (List.map (fun a => a / 2) alphas)) alphas
        (fun a => addVec
          ((scoreCore y a ((qlookup d (a / 2)).getD []) ((qlookup d (1 - a / 2)).getD []) false).sharpness)
          ((scoreCore y a ((qlookup d (a / 2)).getD []) ((qlookup d (1 - a / 2)).getD []) false).calibration))
        (fun a => (scoreCore y a ((qlookup d (a / 2)).getD []) ((qlookup d (1 - a / 2)).getD []) false).sharpness)
      rw [hW]
      rfl
    | true =>
      simp only [if_true, zipWith_map_same, zipWith3_map_same, List.map_map]
      have htot : List.map (fun a => (scoreCore y a ((qlookup d (a / 2)).getD [])
          ((qlookup d (1 - a / 2)).getD []) true).total) alphas
          = List.map (fun a => addVec
            ((scoreCore y a ((qlookup d (a / 2)).getD [])
              ((qlookup d (1 - a / 2)).getD []) true).sharpness)
            ((scoreCore y a ((qlookup d (a / 2)).getD [])
              ((qlookup d (1 - a / 2)).getD []) true).calibration)) alphas := rfl
      rw [htot, wsum_map_addVec]
      have hW := aggregate_wtotal_eq (weights.getD (List.map (fun a => a / 2) alphas)) alphas
        (fun a => addVec
          ((scoreCore y a ((qlookup d (a / 2)).getD []) ((qlookup d (1 - a / 2)).getD []) true).sharpness)
          ((scoreCore y a ((qlookup d (a / 2)).getD []) ((qlookup d (1 - a / 2)).getD []) true).calibration))
        (fun a => (scoreCore y a ((qlookup d (a / 2)).getD []) ((qlookup d (1 - a / 2)).getD []) true).sharpness)
      rw [hW]
      rfl
  · have hF : alphas.all (fun a =>
        ((qlookup d (a / 2)).isSome && (qlookup d (1 - a / 2)).isSome)) = false :=
      Bool.eq_false_iff.mpr h
    have hcol := collectScores_err y d percent check alphas hF
    simp only [weighted_interval_score, weighted_interval_score_fast, hcol, if_neg h]

/-- C2: the direct and the batched weighted interval score agree on every
input: for any observations, alpha list (repetitions included), quantile
dictionary and weight choice, the two strategies return the same numeric
(total, sharpness, calibration) triple, and fail on the same inputs. -/
theorem C2_weighted_strategies_equal (y : Vec) (alphas : List ℚ) (d : QDict)
    (weights : Option (List ℚ)) (percent check : Bool) :
    (weighted_interval_score y alphas d weights percent check).map Prod.snd =
    (weighted_interval_score_fast y alphas d weights percent check).map Prod.snd :=
  weighted_map_snd_eq_aux y alphas d weights percent check


/-- C3: omitting the weights is the same as passing the explicit weight
vector `alpha_i / 2`, for both strategies; on the reference data with
alphas `[0.2, 0.4]` and omitted weights the first entry of the returned
total is `7/3` (≈ 2.3333333). -/
theorem C3_default_weights :
    (∀ (y : Vec) (alphas : List ℚ) (d : QDict) (percent check : Bool),
      weighted_interval_score y alphas d none percent check =
        weighted_interval_score y alphas d
          (some (alphas.map (fun a => a / 2))) percent check ∧
      weighted_interval_score_fast y alphas d none percent check =
        weighted_interval_score_fast y alphas d
          (some (alphas.map (fun a => a / 2))) percent check) ∧
    ∃ t, (weighted_interval_score_fast observations_test [0.2, 0.4]
        quantile_dict_test none false true).map Prod.snd = .ok t ∧
      t.total.getD 0 0 = 7 / 3 := by
  constructor
  · intro y alphas d percent check
    exact ⟨rfl, rfl⟩
  · refine ⟨⟨[7/3, 74/5, 39/5, 122/5, 49/15, 16, 16/3, 31/6],
      [7/3, 4/5, 17/15, 46/15, 49/15, 1, 2, 1/6],
      [0, 14, 20/3, 64/3, 0, 15, 10/3, 5]⟩, ?_, by norm_num⟩
    norm_num [weighted_interval_score_fast, qlookup, zipWith3, addVec,
      wsum, wtotal, divVec, scaleVec, observations_test, quantile_dict_test,
      Except.map]

/-- Subtracting a vector from itself gives the zero vector. -/
theorem zipWith_sub_self (m : Vec) :
    List.zipWith (fun li ri => ri - li) m m = List.replicate m.length 0 := by
  induction m with
  | nil => rfl
  | cons a as ih => simp [List.replicate, ih]

/-- Adding the zero vector on the left is the identity on vectors of the
same length. -/
theorem addVec_replicate_zero (v : Vec) (n : ℕ) (h : v.length = n) :
    addVec (List.replicate n 0) v = v := by
  induction v generalizing n with
  | nil => subst h; rfl
  | cons a as ih =>
    cases n with
    | zero => simp at h
    | succ k => simp [List.replicate, ih k (by simpa using h)]

/-- A three-way zip whose last two arguments coincide is a two-way zip. -/
theorem zipWith3_same23 (f : ℚ → ℚ → ℚ → ℚ) (y m : Vec) :
    zipWith3 f y m m = List.zipWith (fun a b => f a b b) y m := by
  induction y generalizing m with
  | nil => rfl
  | cons a as ih =>
    cases m with
    | nil => rfl
    | cons b bs => simp [ih]

/-- Pointwise congruence for two-way zips. -/
theorem zipWith_congr_fun (f g : ℚ → ℚ → ℚ) (as bs : Vec)
    (h : ∀ a b, f a b = g a b) :
    List.zipWith f as bs = List.zipWith g as bs := by
  induction as generalizing bs with
  | nil => rfl
  | cons a at' ih =>
    cases bs with
    | nil => rfl
    | cons b bt => simp [h, ih]

/-- Scaling and then dividing by the same non-zero factor is the
identity. -/
theorem divVec_scaleVec_cancel (w : ℚ) (v : Vec) (hw : w ≠ 0) :
    divVec (scaleVec w v) w = v := by
  induction v with
  | nil => rfl
  | cons a as ih => simp [mul_div_cancel_left₀ _ hw, ih]

/-- The degenerate calibration at alpha 1 is twice the absolute error. -/
theorem degenerate_calib_eq (y m : Vec) :
    zipWith3 (fun yi li ri =>
        2 / 1 * (if yi < li then li - yi else 0) +
        2 / 1 * (if ri < yi then yi - ri else 0)) y m m =
      List.zipWith (fun yi mi => 2 * |yi - mi|) y m := by
  rw [zipWith3_same23]
  apply zipWith_congr_fun
  intro a b
  by_cases h1 : a < b
  · rw [if_pos h1, if_neg (by linarith), abs_of_neg (by linarith : a - b < 0)]
    ring
  · by_cases h2 : b < a
    · rw [if_neg h1, if_pos h2, abs_of_pos (by linarith : 0 < a - b)]
      ring
    · have : a = b := le_antisymm (not_lt.1 h2) (not_lt.1 h1)
      rw [if_neg h1, if_neg h2, this]
      simp

/-- C4: with the single degenerate level alpha = 1 and omitted weights,
the total of `weighted_interval_score_fast y [1] d` equals the total of
`interval_score y 1 d` and both equal `2·|y − median|` element-wise, with
an all-zero sharpness component. -/
theorem C4_degenerate_median (y m : Vec) (d : QDict) (check : Bool)
    (hm : qlookup d (1 / 2) = some m) (hlen : m.length = y.length) :
    (weighted_interval_score_fast y [1] d none false check).map
        (fun p => p.2.total) =
      .ok (List.zipWith (fun yi mi => 2 * |yi - mi|) y m) ∧
    (interval_score y 1 (some d) none none false check).map
        (fun p => p.2.total) =
      .ok (List.zipWith (fun yi mi => 2 * |yi - mi|) y m) ∧
    (weighted_interval_score_fast y [1] d none false check).map
        (fun p => p.2.sharpness) = .ok (List.replicate m.length 0) ∧
    (interval_score y 1 (some d) none none false check).map
        (fun p => p.2.sharpness) = .ok (List.replicate m.length 0) := by
  have hq2 : qlookup d (1 - 1 / 2) = some m := by
    rw [(by norm_num : (1 : ℚ) - 1 / 2 = 1 / 2)]
    exact hm
  have hcal := degenerate_calib_eq y m
  have hclen : (List.zipWith (fun yi mi => 2 * |yi - mi|) y m).length =
      m.length := by
    rw [List.length_zipWith]
    omega
  have htot : addVec (List.zipWith (fun li ri => ri - li) m m)
      (zipWith3 (fun yi li ri =>
        2 / 1 * (if yi < li then li - yi else 0) +
        2 / 1 * (if ri < yi then yi - ri else 0)) y m m) =
      List.zipWith (fun yi mi => 2 * |yi - mi|) y m := by
    rw [zipWith_sub_self, hcal, addVec_replicate_zero _ _ hclen]
  have hfast : weighted_interval_score_fast y [1] d none false check =
      .ok (check && !(qdictConsistent d),
        ⟨divVec (addVec (scaleVec (1 / 2) (List.zipWith (fun li ri => ri - li) m m))
            (scaleVec (1 / 2) (zipWith3 (fun yi li ri =>
              2 / 1 * (if yi < li then li - yi else 0) +
              2 / 1 * (if ri < yi then yi - ri else 0)) y m m))) (1 / 2 + 0),
         divVec (scaleVec (1 / 2) (List.zipWith (fun li ri => ri - li) m m)) (1 / 2 + 0),
         divVec (scaleVec (1 / 2) (zipWith3 (fun yi li ri =>
            2 / 1 * (if yi < li then li - yi else 0) +
            2 / 1 * (if ri < yi then yi - ri else 0)) y m m)) (1 / 2 + 0)⟩) := by
    simp only [weighted_interval_score_fast, hm, hq2, Option.isSome_some,
      Bool.and_self, List.all_cons, List.all_nil, Bool.and_true, if_true,
      List.map_cons, List.map_nil, Option.getD_some, Option.getD_none,
      List.zipWith_cons_cons, List.zipWith_nil_right, zipWith3_cons,
      Bool.false_eq_true, if_false, wsum_cons, wsum_nil_right, wsum_nil_left,
      zipWith3_nil_left, wtotal_cons, wtotal_nil_right, addVec_nil_right]
  have hint : interval_score y 1 (some d) none none false check =
      .ok (check && !(qdictConsistent d), scoreCore y 1 m m false) := by
    rw [interval_score_dict_eq, hm, hq2]
  have hW : (1 : ℚ) / 2 + 0 ≠ 0 := by norm_num
  have hWe : (1 : ℚ) / 2 + 0 = 1 / 2 := by norm_num
  refine ⟨?_, ?_, ?_, ?_⟩
  · rw [hfast]
    show Except.ok _ = _
    congr 1
    rw [← scaleVec_addVec, hWe, divVec_scaleVec_cancel _ _ (by norm_num), htot]
  · rw [hint]
    exact congrArg Except.ok htot
  · rw [hfast]
    show Except.ok _ = _
    congr 1
    rw [hWe, divVec_scaleVec_cancel _ _ (by norm_num), zipWith_sub_self]
  · rw [hint]
    exact congrArg Except.ok (zipWith_sub_self m)

/-- Witness instantiating the C4 theorem at a concrete input. -/
theorem C4_degenerate_median_witness :
    (weighted_interval_score_fast [4, 7] [1] [(1 / 2, [3, 9])] none false
        true).map (fun p => p.2.total) =
      .ok (List.zipWith (fun yi mi => 2 * |yi - mi|) [4, 7] [3, 9]) ∧
    (interval_score [4, 7] 1 (some [(1 / 2, [3, 9])]) none none false
        true).map (fun p => p.2.total) =
      .ok (List.zipWith (fun yi mi => 2 * |yi - mi|) [4, 7] [3, 9]) ∧
    (weighted_interval_score_fast [4, 7] [1] [(1 / 2, [3, 9])] none false
        true).map (fun p => p.2.sharpness) =
      .ok (List.replicate (List.length ([3, 9] : Vec)) 0) ∧
    (interval_score [4, 7] 1 (some [(1 / 2, [3, 9])]) none none false
        true).map (fun p => p.2.sharpness) =
      .ok (List.replicate (List.length ([3, 9] : Vec)) 0) :=
  C4_degenerate_median [4, 7] [3, 9] [(1 / 2, [3, 9])] true
    (by norm_num [qlookup]) rfl

/-- Dictionary-mode reduction of `interval_score` with arbitrary explicit
boundaries. -/
theorem interval_score_some_eq (y : Vec) (alpha : ℚ) (d : QDict)
    (ql qr : Option Vec) (percent check : Bool) :
    interval_score y alpha (some d) ql qr percent check =
      if ql.isSome || qr.isSome then .error .usage
      else
        match qlookup d (alpha / 2), qlookup d (1 - alpha / 2) with
        | some l, some r =>
          .ok (check && !(qdictConsistent d), scoreCore y alpha l r percent)
        | _, _ => .error .usage := rfl

/-- The numeric part of `interval_score` does not depend on the
consistency flag. -/
theorem interval_score_map_snd_check_aux (y : Vec) (alpha : ℚ)
    (qd : Option QDict) (ql qr : Option Vec) (percent : Bool) :
    (interval_score y alpha qd ql qr percent true).map Prod.snd =
    (interval_score y alpha qd ql qr percent false).map Prod.snd := by
  rcases qd with _ | d
  · rcases ql with _ | l <;> rcases qr with _ | r <;> rfl
  · rw [interval_score_some_eq, interval_score_some_eq]
    by_cases hq : (ql.isSome || qr.isSome) = true
    · rw [if_pos hq, if_pos hq]
    · rw [if_neg hq, if_neg hq]
      rcases qlookup d (alpha / 2) with _ | l <;>
        rcases qlookup d (1 - alpha / 2) with _ | r <;> rfl

/-- The numeric part of the batched weighted score does not depend on the
consistency flag. -/
theorem fast_map_snd_check_aux (y : Vec) (alphas : List ℚ) (d : QDict)
    (w : Option (List ℚ)) (percent : Bool) :
    (weighted_interval_score_fast y alphas d w percent true).map Prod.snd =
    (weighted_interval_score_fast y alphas d w percent false).map Prod.snd := by
  by_cases h : alphas.all (fun a =>
      ((qlookup d (a / 2)).isSome && (qlookup d (1 - a / 2)).isSome)) = true
  · simp only [weighted_interval_score_fast, if_pos h]
    rfl
  · simp only [weighted_interval_score_fast, if_neg h]

/-- A mapped list whose elements all carry a false flag has no true
flag. -/
theorem any_fst_map_false {α : Type} (l : List α) (g : α → Bool × ScoreTriple)
    (hg : ∀ a, (g a).1 = false) : (l.map g).any Prod.fst = false := by
  induction l with
  | nil => rfl
  | cons a t ih => simp [hg, ih]

/-- C9: a consistency violation is non-fatal for every public function:
with the check on, the numeric result equals the one with the check off
(and errors coincide), with the check off the diagnostic flag is never
raised, and a detected violation with the check on is reported through
the diagnostic flag while computation proceeds on the supplied values. -/
theorem C9_consistency_nonfatal :
    (∀ (y : Vec) (alpha : ℚ) (qd : Option QDict) (ql qr : Option Vec)
      (percent : Bool),
      (interval_score y alpha qd ql qr percent true).map Prod.snd =
      (interval_score y alpha qd ql qr percent false).map Prod.snd) ∧
    (∀ (y : Vec) (alphas : List ℚ) (d : QDict) (wt : Option (List ℚ))
      (percent : Bool),
      (weighted_interval_score y alphas d wt percent true).map Prod.snd =
      (weighted_interval_score y alphas d wt percent false).map Prod.snd ∧
      (weighted_interval_score_fast y alphas d wt percent true).map Prod.snd =
      (weighted_interval_score_fast y alphas d wt percent false).map Prod.snd) ∧
    (∀ (y lower upper : Vec),
      (outside_interval y lower upper true).2 =
        (outside_interval y lower upper false).2 ∧
      (outside_interval y lower upper false).1 = false) ∧
    (∀ (lo uo ln un : Option Vec),
      (interval_consistency_score lo uo ln un true).2 =
        (interval_consistency_score lo uo ln un false).2 ∧
      (interval_consistency_score lo uo ln un false).1 = false) ∧
    (∀ (y : Vec) (alpha : ℚ) (qd : Option QDict) (ql qr : Option Vec)
      (percent : Bool) (w : Bool) (t : ScoreTriple),
      interval_score y alpha qd ql qr percent false = .ok (w, t) → w = false) ∧
    (∀ (y : Vec) (alphas : List ℚ) (d : QDict) (wt : Option (List ℚ))
      (percent : Bool) (w : Bool) (t : ScoreTriple),
      weighted_interval_score y alphas d wt percent false = .ok (w, t) →
        w = false) ∧
    (∀ (y : Vec) (alphas : List ℚ) (d : QDict) (wt : Option (List ℚ))
      (percent : Bool) (w : Bool) (t : ScoreTriple),
      weighted_interval_score_fast y alphas d wt percent false = .ok (w, t) →
        w = false) ∧
    (∀ (y l r : Vec) (alpha : ℚ) (percent : Bool),
      vecLE l r = false →
      interval_score y alpha none (some l) (some r) percent true =
        .ok (true, scoreCore y alpha l r percent)) ∧
    (∀ (y lower upper : Vec), vecLE lower upper = false →
      (outside_interval y lower upper true).1 = true) ∧
    (∀ (lo uo ln un : Option Vec), pairLE lo uo = false →
      (interval_consistency_score lo uo ln un true).1 = true) ∧
    (∀ (y : Vec) (alphas : List ℚ) (d : QDict) (wt : Option (List ℚ))
      (percent : Bool),
      alphas.all (fun a =>
        ((qlookup d (a / 2)).isSome && (qlookup d (1 - a / 2)).isSome)) = true →
      qdictConsistent d = false →
      ∃ t, weighted_interval_score_fast y alphas d wt percent true =
        .ok (true, t)) ∧
    (∀ (y : Vec) (a : ℚ) (rest : List ℚ) (d : QDict) (wt : Option (List ℚ))
      (percent : Bool),
      (a :: rest).all (fun x =>
        ((qlookup d (x / 2)).isSome && (qlookup d (1 - x / 2)).isSome)) = true →
      qdictConsistent d = false →
      ∃ t, weighted_interval_score y (a :: rest) d wt percent true =
        .ok (true, t)) := by
  refine ⟨?_, ?_, ?_, ?_, ?_, ?_, ?_, ?_, ?_, ?_, ?_, ?_⟩
  · exact interval_score_map_snd_check_aux
  · intro y alphas d wt percent
    refine ⟨?_, fast_map_snd_check_aux y alphas d wt percent⟩
    calc (weighted_interval_score y alphas d wt percent true).map Prod.snd
        = (weighted_interval_score_fast y alphas d wt percent true).map
            Prod.snd := weighted_map_snd_eq_aux y alphas d wt percent true
      _ = (weighted_interval_score_fast y alphas d wt percent false).map
            Prod.snd := fast_map_snd_check_aux y alphas d wt percent
      _ = (weighted_interval_score y alphas d wt percent false).map
            Prod.snd :=
          (weighted_map_snd_eq_aux y alphas d wt percent false).symm
  · exact fun y lower upper => ⟨rfl, rfl⟩
  · exact fun lo uo ln un => ⟨rfl, rfl⟩
  · intro y alpha qd ql qr percent w t h
    rcases qd with _ | d
    · rcases ql with _ | l
      · rcases qr with _ | r <;> exact Except.noConfusion h
      · rcases qr with _ | r
        · exact Except.noConfusion h
        · rw [show interval_score y alpha none (some l) (some r) percent false =
            .ok (false && !(vecLE l r), scoreCore y alpha l r percent) from rfl] at h
          simp only [Except.ok.injEq, Prod.mk.injEq] at h
          rw [← h.1]
          exact Bool.false_and _
    · rw [interval_score_some_eq] at h
      by_cases hq : (ql.isSome || qr.isSome) = true
      · rw [if_pos hq] at h
        exact Except.noConfusion h
      · rw [if_neg hq] at h
        rcases hL : qlookup d (alpha / 2) with _ | l <;>
          rcases hR : qlookup d (1 - alpha / 2) with _ | r <;>
          rw [hL, hR] at h
        · exact Except.noConfusion h
        · exact Except.noConfusion h
        · exact Except.noConfusion h
        · simp only [Except.ok.injEq, Prod.mk.injEq] at h
          rw [← h.1]
          exact Bool.false_and _
  · intro y alphas d wt percent w t h
    by_cases hg : alphas.all (fun a =>
        ((qlookup d (a / 2)).isSome && (qlookup d (1 - a / 2)).isSome)) = true
    · have hcol := collectScores_ok y d percent false alphas hg
      simp only [weighted_interval_score, hcol] at h
      simp only [Except.ok.injEq, Prod.mk.injEq] at h
      rw [← h.1]
      exact any_fst_map_false alphas
        (fun a => (false && !(qdictConsistent d),
          scoreCore y a ((qlookup d (a / 2)).getD [])
            ((qlookup d (1 - a / 2)).getD []) percent))
        (fun a => rfl)
    · have hcol := collectScores_err y d percent false alphas
        (Bool.eq_false_iff.mpr hg)
      simp only [weighted_interval_score, hcol] at h
      exact Except.noConfusion h
  · intro y alphas d wt percent w t h
    by_cases hg : alphas.all (fun a =>
        ((qlookup d (a / 2)).isSome && (qlookup d (1 - a / 2)).isSome)) = true
    · simp only [weighted_interval_score_fast, if_pos hg] at h
      simp only [Except.ok.injEq, Prod.mk.injEq] at h
      rw [← h.1]
      exact Bool.false_and _
    · simp only [weighted_interval_score_fast, if_neg hg] at h
      exact Except.noConfusion h
  · intro y l r alpha percent hviol
    rw [show interval_score y alpha none (some l) (some r) percent true =
      .ok (true && !(vecLE l r), scoreCore y alpha l r percent) from rfl, hviol]
    rfl
  · intro y lower upper hviol
    rw [show (outside_interval y lower upper true).1 =
      (true && !(vecLE lower upper)) from rfl, hviol]
    rfl
  · intro lo uo ln un hviol
    rw [show (interval_consistency_score lo uo ln un true).1 =
      (true && (!(pairLE lo uo) || !(pairLE ln un))) from rfl, hviol]
    rfl
  · intro y alphas d wt percent hg hviol
    apply Exists.intro
    simp only [weighted_interval_score_fast, if_pos hg, hviol]
    rfl
  · intro y a rest d wt percent hg hviol
    have hcol := collectScores_ok y d percent true (a :: rest) hg
    apply Exists.intro
    simp only [weighted_interval_score, hcol, List.map_cons, List.any_cons,
      hviol]
    rfl

/-- Witness instantiating the hypothesis-bearing parts of the C9 theorem
at concrete inputs: a reversed boundary pair for the three non-weighted
functions, an inconsistent dictionary for the weighted ones, and a
flag-free result with the check off. -/
theorem C9_consistency_nonfatal_witness :
    (interval_score [1] 1 none (some [2]) (some [1]) false true =
      .ok (true, scoreCore [1] 1 [2] [1] false)) ∧
    ((outside_interval [1] [2] [1] true).1 = true) ∧
    ((interval_consistency_score (some [2]) (some [1]) (some [0]) (some [3])
      true).1 = true) ∧
    (∃ t, weighted_interval_score_fast [1] [1] [(1 / 2, [3]), (1 / 4, [9])]
      none false true = .ok (true, t)) ∧
    (∃ t, weighted_interval_score [1] [1] [(1 / 2, [3]), (1 / 4, [9])]
      none false true = .ok (true, t)) := by
  refine ⟨?_, ?_, ?_, ?_, ?_⟩
  · exact C9_consistency_nonfatal.2.2.2.2.2.2.2.1 [1] [2] [1] 1 false
      (by norm_num [vecLE])
  · exact C9_consistency_nonfatal.2.2.2.2.2.2.2.2.1 [1] [2] [1]
      (by norm_num [vecLE])
  · exact C9_consistency_nonfatal.2.2.2.2.2.2.2.2.2.1 (some [2]) (some [1])
      (some [0]) (some [3]) (by norm_num [pairLE, vecLE])
  · exact C9_consistency_nonfatal.2.2.2.2.2.2.2.2.2.2.1 [1] [1]
      [(1 / 2, [3]), (1 / 4, [9])] none false (by norm_num [qlookup])
      (by norm_num [qdictConsistent, vecLE])
  · exact C9_consistency_nonfatal.2.2.2.2.2.2.2.2.2.2.2 [1] 1 []
      [(1 / 2, [3]), (1 / 4, [9])] none false (by norm_num [qlookup])
      (by norm_num [qdictConsistent, vecLE])

end Scoring
